import Mathlib

/-!
Verification of the filename-safety policy and save operation of
`src/text_saver_mcp.py` (a minimal MCP server exposing one tool, `save_text`).

The Python functions `validate_filename`, `sanitize_path` and `save_text` are
embedded shallowly below, character-for-character faithful to the source:

* `SAFE_FILENAME_PATTERN = re.compile(r'^[a-zA-Z0-9][a-zA-Z0-9_\-\.]*$')` is
  embedded as `patMatch`.  Python `re.match` with a trailing `$` also matches
  just before a single trailing newline, so `patMatch` has the corresponding
  extra disjunct.
* `os.path` functions are modelled with POSIX semantics (the server runs on a
  POSIX host): `isabs s = s.startswith('/')`, `basename` keeps everything
  after the last `'/'`, `join` as in `posixpath.join`.
* The filesystem is modelled as a finite map from paths to file contents;
  `open(..., 'w')` / `file.write` either succeeds (the map is updated, the
  on-disk byte size of the file is the UTF-8 length of the content) or raises
  `PermissionError` / `IOError`, which the source converts into error dicts.
  The outcome of the write call is an explicit `WriteOutcome` input.
* `datetime.now().strftime("%Y-%m-%d-%H-%M-%S")` is modelled by `fmtTimestamp`
  applied to an explicit `Timestamp` input (six zero-padded decimal fields).
* The returned Python dict is modelled as an association list `JDict`;
  `raise` / `try` / `except` as `Except PyErr`, with the handler of
  `save_text` converting every raised error into an error dict, so the
  embedded `save_text` is a total function.
-/

namespace TextSaver

/-- First-character class of `SAFE_FILENAME_PATTERN`: ASCII `[a-zA-Z0-9]`. -/
def isSafeStart (c : Char) : Bool :=
  ('a' ≤ c && c ≤ 'z') || ('A' ≤ c && c ≤ 'Z') || ('0' ≤ c && c ≤ '9')

/-- Repeated-character class of `SAFE_FILENAME_PATTERN`: `[a-zA-Z0-9_\-\.]`. -/
def isSafeRest (c : Char) : Bool :=
  isSafeStart c || c == '_' || c == '-' || c == '.'

/-- The regex body `[a-zA-Z0-9][a-zA-Z0-9_\-\.]*` matched against a whole string. -/
def patMatchCore : List Char → Bool
  | [] => false
  | c :: rest => isSafeStart c && rest.all isSafeRest

/-- Python `SAFE_FILENAME_PATTERN.match(s)` (as a Boolean, line 44 / 94 of the
source).  Python `$` matches at the end of the string or just before a single
trailing newline, hence the second disjunct. -/
def patMatch (cs : List Char) : Bool :=
  patMatchCore cs ||
    (match cs.getLast? with
     | some c => c == '\n' && patMatchCore cs.dropLast
     | none => false)

/-- Does the list start with the two characters `".."`? -/
def startsDotDot : List Char → Bool
  | c :: r :: _ => c == '.' && r == '.'
  | _ => false

/-- Python `'..' in s`: some suffix of `s` starts with `".."`. -/
def hasDotDot : List Char → Bool
  | [] => false
  | c :: rest => startsDotDot (c :: rest) || hasDotDot rest

/-- Python `c in s` for a single character `c`. -/
def containsChar (s : String) (c : Char) : Bool :=
  s.toList.contains c

/-- POSIX `os.path.isabs`: the string starts with `'/'`. -/
def posixIsAbs (s : String) : Bool :=
  match s.toList with
  | c :: _ => c == '/'
  | [] => false

/-- Embedding of `validate_filename` (source lines 76-94): reject absolute
paths, any occurrence of `".."`, and either separator character; otherwise
test `SAFE_FILENAME_PATTERN.match(filename)`. -/
def validate_filename (filename : String) : Bool :=
  if posixIsAbs filename || hasDotDot filename.toList
      || containsChar filename '/' || containsChar filename '\\' then
    false
  else
    patMatch filename.toList

/-- POSIX `os.path.basename`: everything after the last `'/'`. -/
def basenameList (cs : List Char) : List Char :=
  (cs.reverse.takeWhile (fun c => !(c == '/'))).reverse

/-- The per-character transform of `sanitize_path` (source line 114):
`c if SAFE_FILENAME_PATTERN.match(c) else '_'`.  Note the whole pattern is
matched against the one-character string `[c]`. -/
def sanitizeChar (c : Char) : Char :=
  if patMatch [c] then c else '_'

/-- Embedding of `sanitize_path` (source lines 96-120): take the basename,
map `sanitizeChar` over its characters, and fall back to `"file.txt"` when
the result is empty. -/
def sanitize_path (filename : String) : String :=
  let base := basenameList filename.toList
  let safe := base.map sanitizeChar
  if safe.isEmpty then "file.txt" else String.mk safe

/-- One local-clock reading, the six fields used by the source's
`strftime("%Y-%m-%d-%H-%M-%S")`. -/
structure Timestamp where (year month day hour minute second : Nat)

/-- The decimal digit character of `n % 10`. -/
def digitChar (n : Nat) : Char :=
  if n % 10 = 0 then '0' else if n % 10 = 1 then '1' else if n % 10 = 2 then '2'
  else if n % 10 = 3 then '3' else if n % 10 = 4 then '4' else if n % 10 = 5 then '5'
  else if n % 10 = 6 then '6' else if n % 10 = 7 then '7' else if n % 10 = 8 then '8'
  else '9'

/-- Fuel-driven most-significant-first decimal digit list. -/
def natDigitsAux : Nat → Nat → List Char → List Char
  | 0, _, acc => acc
  | fuel + 1, n, acc =>
    if n < 10 then digitChar n :: acc
    else natDigitsAux fuel (n / 10) (digitChar n :: acc)

/-- Decimal digit characters of `n`. -/
def natDigits (n : Nat) : List Char :=
  natDigitsAux (n + 1) n []

/-- Zero-pad the decimal form of `n` to width `w` (as `strftime` field codes do). -/
def padNum (w n : Nat) : List Char :=
  List.replicate (w - (natDigits n).length) '0' ++ natDigits n

/-- Embedding of `datetime.now().strftime("%Y-%m-%d-%H-%M-%S")` applied to an
explicit clock reading. -/
def fmtTimestamp (t : Timestamp) : String :=
  String.mk (padNum 4 t.year ++ ['-'] ++ padNum 2 t.month ++ ['-'] ++ padNum 2 t.day
    ++ ['-'] ++ padNum 2 t.hour ++ ['-'] ++ padNum 2 t.minute ++ ['-'] ++ padNum 2 t.second)

/-- Python `s.endswith(suffix)` over character lists. -/
def endsWithL (cs suf : List Char) : Bool :=
  suf == cs.drop (cs.length - suf.length)

/-- Python `s.endswith(suffix)` on strings. -/
def strEndsWith (s suf : String) : Bool :=
  endsWithL s.toList suf.toList

/-- Python truthiness of the `Optional[str]` argument `filename`
(`if not filename:` is taken for `None` and for the empty string). -/
def pyTruthy : Option String → Bool
  | none => false
  | some s => !s.isEmpty

/-- The filename before extension enforcement (source lines 166-177): generate
a timestamp name when `filename` is falsy, otherwise validate and, on failure,
sanitize. -/
def baseFilename (f : Option String) (t : Timestamp) : String :=
  if !pyTruthy f then fmtTimestamp t ++ ".txt"
  else
    if validate_filename (f.getD "") then f.getD "" else sanitize_path (f.getD "")

/-- Extension enforcement (source lines 180-181): append `".txt"` when not
already a suffix. -/
def ensureTxt (filename : String) : String :=
  if strEndsWith filename ".txt" then filename else filename ++ ".txt"

/-- The filename-derivation pipeline of `save_text` (source lines 166-181). -/
def deriveFilename (f : Option String) (t : Timestamp) : String :=
  ensureTxt (baseFilename f t)

/-- POSIX `os.path.join(a, b)` for a single joined component. -/
def osJoin (a b : String) : String :=
  if posixIsAbs b then b
  else if a == "" || strEndsWith a "/" then a ++ b
  else a ++ "/" ++ b

/-- Python `len(s.encode('utf-8'))`: the UTF-8 byte length of a string. -/
def utf8Len (s : String) : Nat :=
  (s.toList.map Char.utf8Size).sum

/-- The filesystem, modelled as a finite map from paths to file contents. -/
structure FS where (files : List (String × String))

/-- A successful `open(p, 'w', encoding='utf-8')` followed by `file.write(c)`:
the file at `p` now holds exactly `c`. -/
def fsWrite (fs : FS) (p c : String) : FS :=
  ⟨(p, c) :: fs.files.filter (fun e => !(e.1 == p))⟩

/-- `os.path.exists(p)` over the filesystem model. -/
def fsHas (fs : FS) (p : String) : Bool :=
  (fs.files.find? (fun e => e.1 == p)).isSome

/-- `os.path.getsize(p)` over the filesystem model: the UTF-8 byte length of
the stored content (0 for a missing file). -/
def fsGetsize (fs : FS) (p : String) : Nat :=
  match fs.files.find? (fun e => e.1 == p) with
  | some e => utf8Len e.2
  | none => 0

/-- Values of the result dict returned by `save_text`. -/
inductive JVal where
  | str (s : String)
  | num (n : Nat)
deriving DecidableEq

/-- The Python result dict, as an association list. -/
abbrev JDict := List (String × JVal)

/-- The custom exceptions raised inside the `try` block of `save_text`. -/
inductive PyErr where
  | textTooLarge (msg : String)
  | invalidFilename (msg : String)
deriving DecidableEq

/-- Outcome of the `open`/`write` call, an input of the model: success, or one
of the two exception classes the source handles around the write. -/
inductive WriteOutcome where
  | ok
  | permDenied
  | ioFault (msg : String)
deriving DecidableEq

/-- `MAX_TEXT_SIZE = 10 * 1024 * 1024` (source line 40). -/
def MAX_TEXT_SIZE : Nat := 10 * 1024 * 1024

/-- An error result dict: `{"status": "error", "message": msg}`. -/
def mkError (msg : String) : JDict :=
  [("status", JVal.str "error"), ("message", JVal.str msg)]

/-- The message of `TextTooLargeError` (source line 164). -/
def tooLargeMsg : String :=
  "テキストサイズが許容される最大値（" ++ toString MAX_TEXT_SIZE ++ "バイト）を超えています"

/-- The post-write verification and response of `save_text`
(source lines 208-224): fail when the file does not exist, fail when it has
size zero although the input text was non-empty, otherwise return the success
dict carrying the absolute path, the on-disk size and the filename used. -/
def verifyAndRespond (fs : FS) (filepath absPath text filename : String) : JDict :=
  if !fsHas fs filepath then
    mkError ("ファイルが正常に作成されませんでした: " ++ absPath)
  else
    if fsGetsize fs filepath == 0 && text.length != 0 then
      mkError ("ファイルは作成されましたが、空のようです: " ++ absPath)
    else
      [("status", JVal.str "success"),
       ("message", JVal.str ("テキストをファイルに正常に保存しました: " ++ absPath)),
       ("path", JVal.str absPath),
       ("size", JVal.num (fsGetsize fs filepath)),
       ("filename", JVal.str filename)]

/-- The shape of a result dict, per the spec's interface description: a
`status` key holding `"success"` or `"error"`, a `message` key holding a
string, and the `path`, `size` and `filename` keys present exactly when the
status is `"success"`. -/
def wellFormedResult (r : JDict) : Prop :=
  (List.lookup "status" r = some (JVal.str "success")
    ∨ List.lookup "status" r = some (JVal.str "error"))
  ∧ (∃ m, List.lookup "message" r = some (JVal.str m))
  ∧ (List.lookup "status" r = some (JVal.str "success") ↔
      (∃ p, List.lookup "path" r = some (JVal.str p))
      ∧ (∃ n, List.lookup "size" r = some (JVal.num n))
      ∧ (∃ g, List.lookup "filename" r = some (JVal.str g)))

/-- The `try` block of `save_text` (source lines 156-224).  `root` is
`ALLOWED_SAVE_DIR` (an absolute, already-normalized directory path, so
`os.path.abspath(filepath) = filepath`); `w` is the outcome of the write
call.  The `isinstance(text, str)` guard always passes here because `text`
has type `String`; the `mkdir` call does not affect the file map. -/
def save_text_body (root : String) (fs : FS) (w : WriteOutcome)
    (text : String) (filename : Option String) (t : Timestamp) :
    Except PyErr (JDict × FS) :=
  if utf8Len text > MAX_TEXT_SIZE then
    Except.error (PyErr.textTooLarge tooLargeMsg)
  else
    let name := deriveFilename filename t
    let filepath := osJoin root name
    match w with
    | WriteOutcome.permDenied =>
        Except.ok (mkError ("ファイルへの書き込み権限がありません: " ++ name), fs)
    | WriteOutcome.ioFault e =>
        Except.ok (mkError ("ファイルへの書き込み中にIOエラーが発生しました: " ++ e), fs)
    | WriteOutcome.ok =>
        let fs2 := fsWrite fs filepath text
        Except.ok (verifyAndRespond fs2 filepath filepath text name, fs2)

/-- Embedding of the tool function `save_text` (source lines 156-237): the
`try` body together with its exception handlers, which convert every raised
error into an error dict; the pair also returns the resulting filesystem. -/
def save_text (root : String) (fs : FS) (w : WriteOutcome)
    (text : String) (filename : Option String) (t : Timestamp) : JDict × FS :=
  match save_text_body root fs w text filename t with
  | Except.ok r => r
  | Except.error (PyErr.textTooLarge m) => (mkError m, fs)
  | Except.error (PyErr.invalidFilename m) => (mkError m, fs)

/-! ### Character and pattern lemmas -/

theorem patMatch_singleton (c : Char) : patMatch [c] = isSafeStart c := by
  simp [patMatch, patMatchCore]

theorem safeStart_safeRest {c : Char} (h : isSafeStart c = true) : isSafeRest c = true := by
  simp [isSafeRest, h]

theorem isSafeRest_ne_sep {c : Char} (h : isSafeRest c = true) : c ≠ '/' ∧ c ≠ '\\' :=
  ⟨fun e => by subst e; exact absurd h (by decide),
   fun e => by subst e; exact absurd h (by decide)⟩

theorem no_sep_of_all_safeRest {l : List Char} (h : l.all isSafeRest = true) :
    '/' ∉ l ∧ '\\' ∉ l := by
  constructor <;> intro hm
  · exact absurd (List.all_eq_true.mp h '/' hm) (by decide)
  · exact absurd (List.all_eq_true.mp h '\\' hm) (by decide)

theorem sanitizeChar_safe (c : Char) : isSafeRest (sanitizeChar c) = true := by
  unfold sanitizeChar
  split
  · next h =>
    rw [patMatch_singleton] at h
    exact safeStart_safeRest h
  · decide

theorem sanitizeChar_idem (c : Char) : sanitizeChar (sanitizeChar c) = sanitizeChar c := by
  by_cases h : patMatch [c] = true
  · have hc : sanitizeChar c = c := by rw [sanitizeChar, if_pos h]
    rw [hc]; exact hc
  · have hc : sanitizeChar c = '_' := by rw [sanitizeChar, if_neg h]
    rw [hc]; decide

/-! ### Suffix lemmas -/

theorem endsWithL_append (xs suf : List Char) : endsWithL (xs ++ suf) suf = true := by
  unfold endsWithL
  rw [List.length_append, Nat.add_sub_cancel, List.drop_left]
  exact beq_self_eq_true suf

theorem ne_nil_of_endsWithL {cs suf : List Char} (h : endsWithL cs suf = true)
    (hs : suf ≠ []) : cs ≠ [] := by
  intro hnil
  rw [hnil] at h
  unfold endsWithL at h
  rw [List.drop_nil] at h
  exact hs (eq_of_beq h)

/-! ### Decimal-formatting lemmas -/

theorem digitChar_safe (n : Nat) : isSafeStart (digitChar n) = true := by
  unfold digitChar
  repeat' split
  all_goals decide

theorem natDigitsAux_all {p : Char → Bool} (hd : ∀ n, p (digitChar n) = true) :
    ∀ fuel n acc, acc.all p = true → (natDigitsAux fuel n acc).all p = true := by
  intro fuel
  induction fuel with
  | zero => intro n acc h; exact h
  | succ fuel ih =>
    intro n acc h
    unfold natDigitsAux
    split
    · simp [List.all_cons, hd n, h]
    · exact ih (n / 10) (digitChar n :: acc) (by simp [List.all_cons, hd n, h])

theorem padNum_all {p : Char → Bool} (hd : ∀ n, p (digitChar n) = true)
    (h0 : p '0' = true) (w n : Nat) : (padNum w n).all p = true := by
  unfold padNum
  rw [List.all_append]
  have h1 : (List.replicate (w - (natDigits n).length) '0').all p = true := by
    rw [List.all_eq_true]
    intro x hx
    rw [List.eq_of_mem_replicate hx]
    exact h0
  have h2 : (natDigits n).all p = true := natDigitsAux_all hd (n + 1) n [] rfl
  rw [h1, h2]
  rfl

theorem fmtTimestamp_all_safe (t : Timestamp) :
    (fmtTimestamp t).toList.all isSafeRest = true := by
  have hp : ∀ w n, (padNum w n).all isSafeRest = true :=
    padNum_all (fun n => safeStart_safeRest (digitChar_safe n)) (by decide)
  show (padNum 4 t.year ++ ['-'] ++ padNum 2 t.month ++ ['-'] ++ padNum 2 t.day
      ++ ['-'] ++ padNum 2 t.hour ++ ['-'] ++ padNum 2 t.minute
      ++ ['-'] ++ padNum 2 t.second).all isSafeRest = true
  simp [List.all_append, hp, List.all_cons, show isSafeRest '-' = true from by decide]

/-! ### Basename and sanitization lemmas -/

theorem takeWhile_of_all {p : Char → Bool} :
    ∀ l : List Char, l.all p = true → l.takeWhile p = l := by
  intro l h
  induction l with
  | nil => rfl
  | cons c cs ih =>
    rw [List.all_cons, Bool.and_eq_true] at h
    rw [List.takeWhile_cons_of_pos h.1, ih h.2]

theorem basenameList_of_no_slash {l : List Char}
    (h : l.all (fun c => !(c == '/')) = true) : basenameList l = l := by
  unfold basenameList
  rw [takeWhile_of_all l.reverse (by simpa using h), List.reverse_reverse]

theorem sanitize_props (s : String) :
    (sanitize_path s).toList.all isSafeRest = true ∧ (sanitize_path s).toList ≠ [] := by
  unfold sanitize_path
  by_cases he : ((basenameList s.toList).map sanitizeChar).isEmpty = true
  · rw [if_pos he]
    exact ⟨by decide, by decide⟩
  · rw [if_neg he]
    refine ⟨?_, ?_⟩
    · show ((basenameList s.toList).map sanitizeChar).all isSafeRest = true
      rw [List.all_eq_true]
      intro x hx
      obtain ⟨c, _, rfl⟩ := List.mem_map.mp hx
      exact sanitizeChar_safe c
    · show (basenameList s.toList).map sanitizeChar ≠ []
      intro hn
      rw [hn] at he
      exact he rfl

theorem validate_props {f : String} (h : validate_filename f = true) :
    f.toList ≠ [] ∧ '/' ∉ f.toList ∧ '\\' ∉ f.toList := by
  unfold validate_filename at h
  by_cases hc : (posixIsAbs f || hasDotDot f.toList
      || containsChar f '/' || containsChar f '\\') = true
  · rw [if_pos hc] at h
    exact absurd h (by simp)
  · rw [if_neg hc] at h
    simp only [Bool.or_eq_true, not_or] at hc
    obtain ⟨⟨⟨_, _⟩, hslash⟩, hback⟩ := hc
    refine ⟨?_, ?_, ?_⟩
    · intro hnil
      rw [hnil] at h
      exact absurd h (by decide)
    · intro hmem
      exact hslash (by simpa [containsChar, List.contains] using List.elem_iff.mpr hmem)
    · intro hmem
      exact hback (by simpa [containsChar, List.contains] using List.elem_iff.mpr hmem)

/-! ### Properties of the filename-derivation pipeline -/

theorem ensureTxt_props {fn : String} (h1 : fn.toList ≠ []) (h2 : '/' ∉ fn.toList)
    (h3 : '\\' ∉ fn.toList) :
    (ensureTxt fn).toList ≠ [] ∧ '/' ∉ (ensureTxt fn).toList
      ∧ '\\' ∉ (ensureTxt fn).toList
      ∧ endsWithL (ensureTxt fn).toList ".txt".toList = true := by
  unfold ensureTxt
  by_cases hE : strEndsWith fn ".txt" = true
  · rw [if_pos hE]
    exact ⟨h1, h2, h3, hE⟩
  · rw [if_neg hE]
    have ht : (fn ++ ".txt").toList = fn.toList ++ ".txt".toList := rfl
    refine ⟨?_, ?_, ?_, ?_⟩
    · rw [ht]
      simp [h1]
    · rw [ht]
      intro hm
      rcases List.mem_append.mp hm with hm | hm
      · exact h2 hm
      · exact absurd hm (by decide)
    · rw [ht]
      intro hm
      rcases List.mem_append.mp hm with hm | hm
      · exact h3 hm
      · exact absurd hm (by decide)
    · rw [ht]
      exact endsWithL_append _ _

theorem baseFilename_props (f : Option String) (t : Timestamp) :
    (baseFilename f t).toList ≠ [] ∧ '/' ∉ (baseFilename f t).toList
      ∧ '\\' ∉ (baseFilename f t).toList := by
  unfold baseFilename
  by_cases hf : (!pyTruthy f) = true
  · rw [if_pos hf]
    have hall : ((fmtTimestamp t ++ ".txt").toList).all isSafeRest = true := by
      show ((fmtTimestamp t).toList ++ ".txt".toList).all isSafeRest = true
      rw [List.all_append, fmtTimestamp_all_safe t]
      decide
    have hsep := no_sep_of_all_safeRest hall
    refine ⟨?_, hsep.1, hsep.2⟩
    show (fmtTimestamp t).toList ++ ".txt".toList ≠ []
    simp
  · rw [if_neg hf]
    by_cases hv : validate_filename (f.getD "") = true
    · rw [if_pos hv]
      exact validate_props hv
    · rw [if_neg hv]
      obtain ⟨hall, hne⟩ := sanitize_props (f.getD "")
      have hsep := no_sep_of_all_safeRest hall
      exact ⟨hne, hsep.1, hsep.2⟩

theorem deriveFilename_props (f : Option String) (t : Timestamp) :
    (deriveFilename f t).toList ≠ [] ∧ '/' ∉ (deriveFilename f t).toList
      ∧ '\\' ∉ (deriveFilename f t).toList
      ∧ endsWithL (deriveFilename f t).toList ".txt".toList = true := by
  obtain ⟨h1, h2, h3⟩ := baseFilename_props f t
  exact ensureTxt_props h1 h2 h3

/-! ### String and size lemmas -/

theorem str_length_zero_iff (s : String) : s.length = 0 ↔ s = "" := by
  cases s with
  | mk d =>
    constructor
    · intro h0
      exact congrArg String.mk (List.length_eq_zero.mp h0)
    · intro h
      have hd : d = [] := congrArg String.data h
      rw [hd]
      rfl

theorem length_le_utf8Len (s : String) : s.length ≤ utf8Len s := by
  show s.toList.length ≤ (s.toList.map Char.utf8Size).sum
  induction s.toList with
  | nil => simp
  | cons c cs ih =>
    rw [List.map_cons, List.sum_cons, List.length_cons]
    have := Char.utf8Size_pos c
    omega

theorem utf8Len_replicate (n : Nat) : utf8Len (String.mk (List.replicate n 'a')) = n := by
  show ((List.replicate n 'a').map Char.utf8Size).sum = n
  induction n with
  | zero => rfl
  | succ n ih =>
    rw [List.replicate_succ, List.map_cons, List.sum_cons, ih]
    have ha : 'a'.utf8Size = 1 := by decide
    omega

/-! ### Result-dict lemmas -/

theorem wf_mkError (m : String) : wellFormedResult (mkError m) := by
  refine ⟨Or.inr rfl, ⟨m, rfl⟩, ?_, ?_⟩
  · intro h
    exact absurd (show some (JVal.str "error") = some (JVal.str "success") from h) (by decide)
  · rintro ⟨⟨p, hp⟩, -, -⟩
    exact absurd (show (none : Option JVal) = some (JVal.str p) from hp) (by simp)

theorem wf_success (ap : String) (n : Nat) (m g : String) :
    wellFormedResult [("status", JVal.str "success"), ("message", JVal.str m),
      ("path", JVal.str ap), ("size", JVal.num n), ("filename", JVal.str g)] := by
  refine ⟨Or.inl rfl, ⟨m, rfl⟩, ?_, ?_⟩
  · intro _
    exact ⟨⟨ap, rfl⟩, ⟨n, rfl⟩, ⟨g, rfl⟩⟩
  · intro _
    exact rfl

theorem wf_verify (fs : FS) (fp ap text fn : String) :
    wellFormedResult (verifyAndRespond fs fp ap text fn) := by
  unfold verifyAndRespond
  split
  · exact wf_mkError _
  · split
    · exact wf_mkError _
    · exact wf_success _ _ _ _

/-! ### Sanitization idempotence on non-fallback results -/

theorem sanitize_fixed (b : List Char) (hne : b.map sanitizeChar ≠ []) :
    sanitize_path (String.mk (b.map sanitizeChar)) = String.mk (b.map sanitizeChar) := by
  have hall : (b.map sanitizeChar).all isSafeRest = true := by
    rw [List.all_eq_true]
    intro x hx
    obtain ⟨c, _, rfl⟩ := List.mem_map.mp hx
    exact sanitizeChar_safe c
  have hnos : (b.map sanitizeChar).all (fun c => !(c == '/')) = true := by
    rw [List.all_eq_true]
    intro x hx
    have hx2 := List.all_eq_true.mp hall x hx
    simp [(isSafeRest_ne_sep hx2).1]
  have hb : basenameList (String.mk (b.map sanitizeChar)).toList = b.map sanitizeChar :=
    basenameList_of_no_slash hnos
  have hmap : (b.map sanitizeChar).map sanitizeChar = b.map sanitizeChar := by
    rw [List.map_map]
    have hfun : sanitizeChar ∘ sanitizeChar = sanitizeChar := funext sanitizeChar_idem
    rw [hfun]
  unfold sanitize_path
  show (if ((basenameList (String.mk (b.map sanitizeChar)).toList).map sanitizeChar).isEmpty
      = true then ("file.txt" : String)
    else String.mk ((basenameList (String.mk (b.map sanitizeChar)).toList).map sanitizeChar))
    = String.mk (b.map sanitizeChar)
  rw [hb, hmap]
  rw [if_neg (by intro hcon; exact hne (by simpa using hcon))]

/-! ### Characterizations of the validation predicate -/

theorem posixIsAbs_iff (s : String) :
    posixIsAbs s = true ↔ ∃ rest, s.toList = '/' :: rest := by
  unfold posixIsAbs
  rcases h : s.toList with _ | ⟨c, cs⟩
  · simp
  · constructor
    · intro hc
      exact ⟨cs, by rw [eq_of_beq hc]⟩
    · rintro ⟨rest, hr⟩
      injection hr with e1 _
      rw [e1]
      exact beq_self_eq_true '/'

theorem containsChar_iff (s : String) (c : Char) :
    containsChar s c = true ↔ c ∈ s.toList := by
  unfold containsChar
  exact List.elem_iff

theorem startsDotDot_iff (cs : List Char) :
    startsDotDot cs = true ↔ ∃ b, cs = '.' :: '.' :: b := by
  rcases cs with _ | ⟨c, _ | ⟨r, rest⟩⟩
  · simp [startsDotDot]
  · simp [startsDotDot]
  · show (c == '.' && r == '.') = true ↔ _
    constructor
    · intro h
      rw [Bool.and_eq_true] at h
      obtain ⟨h1, h2⟩ := h
      exact ⟨rest, by rw [eq_of_beq h1, eq_of_beq h2]⟩
    · rintro ⟨b, hb⟩
      injection hb with e1 tl
      injection tl with e2 _
      rw [e1, e2]
      decide

theorem hasDotDot_iff (cs : List Char) :
    hasDotDot cs = true ↔ ∃ a b, cs = a ++ '.' :: '.' :: b := by
  induction cs with
  | nil =>
    simp [hasDotDot]
  | cons c rest ih =>
    rw [show hasDotDot (c :: rest) = (startsDotDot (c :: rest) || hasDotDot rest) from rfl]
    rw [Bool.or_eq_true, startsDotDot_iff, ih]
    constructor
    · rintro (⟨b, hb⟩ | ⟨a, b, hab⟩)
      · exact ⟨[], b, by rw [hb]; rfl⟩
      · exact ⟨c :: a, b, by rw [hab]; rfl⟩
    · rintro ⟨a, b, hab⟩
      cases a with
      | nil =>
        exact Or.inl ⟨b, by simpa using hab⟩
      | cons a0 as =>
        injection hab with e1 e2
        exact Or.inr ⟨as, b, e2⟩

theorem patMatchCore_iff (cs : List Char) :
    patMatchCore cs = true ↔
      ∃ c rest, cs = c :: rest ∧ isSafeStart c = true ∧ rest.all isSafeRest = true := by
  cases cs with
  | nil =>
    simp [patMatchCore]
  | cons c rest =>
    show (isSafeStart c && rest.all isSafeRest) = true ↔ _
    constructor
    · intro h
      rw [Bool.and_eq_true] at h
      obtain ⟨h1, h2⟩ := h
      exact ⟨c, rest, rfl, h1, h2⟩
    · rintro ⟨c2, r2, he, h1, h2⟩
      injection he with e1 e2
      rw [e1, e2, Bool.and_eq_true]
      exact ⟨h1, h2⟩

theorem patMatch_iff (cs : List Char) :
    patMatch cs = true ↔
      ∃ c rest, cs = c :: rest ∧ isSafeStart c = true
        ∧ (rest.all isSafeRest = true
           ∨ ∃ r2, rest = r2 ++ ['\n'] ∧ r2.all isSafeRest = true) := by
  rcases List.eq_nil_or_concat cs with rfl | ⟨ds, d, rfl⟩
  · constructor
    · intro h
      exact absurd h (by decide)
    · rintro ⟨c, rest, he, -, -⟩
      exact absurd he (by simp)
  · rw [List.concat_eq_append]
    unfold patMatch
    rw [List.getLast?_concat, List.dropLast_concat]
    rw [Bool.or_eq_true, Bool.and_eq_true]
    constructor
    · rintro (hcore | ⟨hd, hds⟩)
      · obtain ⟨c, rest, he, h1, h2⟩ := (patMatchCore_iff _).mp hcore
        exact ⟨c, rest, he, h1, Or.inl h2⟩
      · obtain ⟨c, r2, he, h1, h2⟩ := (patMatchCore_iff _).mp hds
        refine ⟨c, r2 ++ ['\n'], ?_, h1, Or.inr ⟨r2, rfl, h2⟩⟩
        rw [he, eq_of_beq hd]
        rfl
    · rintro ⟨c, rest, he, h1, hall | ⟨r2, hr2, h2⟩⟩
      · exact Or.inl ((patMatchCore_iff _).mpr ⟨c, rest, he, h1, hall⟩)
      · rw [hr2] at he
        have he2 : ds ++ [d] = (c :: r2) ++ ['\n'] := by rw [he]; rfl
        obtain ⟨hds, hd⟩ := List.append_inj' he2 rfl
        injection hd with hd1 _
        refine Or.inr ⟨?_, ?_⟩
        · rw [hd1]
          exact beq_self_eq_true '\n'
        · exact (patMatchCore_iff _).mpr ⟨c, r2, hds, h1, h2⟩

/-! ### Claim C1 -/

/-- Claim C1: for every call to `save_text` with any text and any filename
string, the write target is confined strictly inside the storage root: the
target is `root ++ "/" ++ name` where `name` is the derived filename, which is
non-empty, is neither `"."` nor `".."`, and contains no `'/'` and no `'\\'`;
in particular `save("data", "../../etc/passwd")` uses the filename
`"passwd.txt"`.  The hypotheses state that the storage root (an absolute
directory path in the source) is non-empty and does not end with a slash. -/
theorem C1_path_confinement (root : String) (f : Option String) (t : Timestamp)
    (hroot : (root == "") = false) (hslash : strEndsWith root "/" = false) :
    (osJoin root (deriveFilename f t) = root ++ "/" ++ deriveFilename f t
      ∧ deriveFilename f t ≠ "" ∧ deriveFilename f t ≠ "." ∧ deriveFilename f t ≠ ".."
      ∧ '/' ∉ (deriveFilename f t).toList ∧ '\\' ∉ (deriveFilename f t).toList)
    ∧ deriveFilename (some "../../etc/passwd") t = "passwd.txt" := by
  obtain ⟨h1, h2, h3, h4⟩ := deriveFilename_props f t
  have habs : posixIsAbs (deriveFilename f t) = false := by
    rcases hh : (deriveFilename f t).toList with _ | ⟨c, cs⟩
    · exact absurd hh h1
    · have hc : c ≠ '/' := fun e => h2 (by rw [hh, e]; exact List.mem_cons_self _ _)
      unfold posixIsAbs
      rw [hh]
      exact beq_eq_false_iff_ne.mpr hc
  refine ⟨⟨?_, ?_, ?_, ?_, h2, h3⟩, ?_⟩
  · unfold osJoin
    rw [if_neg (by simp [habs]), if_neg (by simp [hroot, hslash])]
  · intro e
    exact h1 (by rw [e]; rfl)
  · intro e
    rw [e] at h4
    exact absurd h4 (by decide)
  · intro e
    rw [e] at h4
    exact absurd h4 (by decide)
  · rfl

/-- Witness for C1 at a concrete root, filename and timestamp. -/
theorem C1_witness :
    (("/data" == "") = false) ∧ strEndsWith "/data" "/" = false
    ∧ osJoin "/data" (deriveFilename (some "../../etc/passwd") ⟨2024, 5, 6, 7, 8, 9⟩)
        = "/data" ++ "/" ++ deriveFilename (some "../../etc/passwd") ⟨2024, 5, 6, 7, 8, 9⟩ :=
  ⟨by decide, by decide,
    (C1_path_confinement "/data" (some "../../etc/passwd") ⟨2024, 5, 6, 7, 8, 9⟩
      (by decide) (by decide)).1.1⟩

/-! ### Claim C2 -/

/-- Counterexample for C2 as stated: `sanitize_path` is not idempotent on the
input `""`, whose sanitized form is the fallback `"file.txt"`; sanitizing that
again replaces the `'.'` (a character the single-character pattern match
rejects) and yields `"file_txt"`. -/
theorem C2_counterexample :
    sanitize_path "" = "file.txt" ∧ sanitize_path (sanitize_path "") = "file_txt"
      ∧ sanitize_path (sanitize_path "") ≠ sanitize_path "" := by
  refine ⟨by decide, by decide, by decide⟩

/-- Claim C2 (amended): `sanitize_path` is idempotent on every input whose
sanitized result is not the empty-result fallback `"file.txt"`; the fallback
itself is not a fixed point because its `'.'` is rewritten to `'_'`. -/
theorem C2_amended (s : String) (h : sanitize_path s ≠ "file.txt") :
    sanitize_path (sanitize_path s) = sanitize_path s := by
  by_cases he : ((basenameList s.toList).map sanitizeChar).isEmpty = true
  · exact absurd (by unfold sanitize_path; rw [if_pos he]) h
  · have h1 : sanitize_path s = String.mk ((basenameList s.toList).map sanitizeChar) := by
      unfold sanitize_path
      rw [if_neg he]
    rw [h1]
    refine sanitize_fixed _ ?_
    intro hn
    rw [hn] at he
    exact he rfl

/-- Witness for C2 (amended) at the concrete input `"abc"`. -/
theorem C2_witness :
    sanitize_path "abc" ≠ "file.txt"
    ∧ sanitize_path (sanitize_path "abc") = sanitize_path "abc" :=
  ⟨by decide, C2_amended "abc" (by decide)⟩

/-! ### Claim C3 -/

/-- Counterexample for C3 as stated: `"a.b"` is already its own final path
component and every one of its characters lies in the claimed allowed set
`{alphanumeric, '_', '-', '.'}`, so the claim forces `sanitize_path "a.b"
= "a.b"`; the code instead rewrites the `'.'` and returns `"a_b"`. -/
theorem C3_counterexample :
    basenameList ("a.b" : String).toList = ("a.b" : String).toList
    ∧ (("a.b" : String).toList).all isSafeRest = true
    ∧ sanitize_path "a.b" = "a_b"
    ∧ ("a_b" : String) ≠ "a.b" := by
  refine ⟨by decide, by decide, by decide, by decide⟩

/-- Claim C3 (amended): `sanitize_path` always returns a non-empty string
with no path separator; when the final path component of the input is empty
the result is exactly the fallback `"file.txt"`, and when it is non-empty the
result is exactly that component with every character that is not an ASCII
alphanumeric replaced by `'_'` (so `'.'`, `'-'` and every other
non-alphanumeric character are replaced; `'_'` is replaced by itself). -/
theorem C3_amended (s : String) :
    sanitize_path s ≠ ""
    ∧ '/' ∉ (sanitize_path s).toList
    ∧ '\\' ∉ (sanitize_path s).toList
    ∧ (basenameList s.toList = [] → sanitize_path s = "file.txt")
    ∧ (basenameList s.toList ≠ [] →
        (sanitize_path s).toList
          = (basenameList s.toList).map (fun c => if isSafeStart c then c else '_')) := by
  have hchar : sanitizeChar = fun c => if isSafeStart c then c else '_' := by
    funext c
    unfold sanitizeChar
    rw [patMatch_singleton]
  obtain ⟨hall, hne⟩ := sanitize_props s
  have hsep := no_sep_of_all_safeRest hall
  refine ⟨?_, hsep.1, hsep.2, ?_, ?_⟩
  · intro h0
    exact hne (by rw [h0]; rfl)
  · intro hb
    unfold sanitize_path
    rw [hb]
    rfl
  · intro hb
    have hmapne : (basenameList s.toList).map sanitizeChar ≠ [] := by
      intro hm
      exact hb (List.map_eq_nil_iff.mp hm)
    have he : ((basenameList s.toList).map sanitizeChar).isEmpty = false := by
      cases hmm : (basenameList s.toList).map sanitizeChar with
      | nil => exact absurd hmm hmapne
      | cons a l => rfl
    have h1 : sanitize_path s = String.mk ((basenameList s.toList).map sanitizeChar) := by
      unfold sanitize_path
      rw [if_neg (by intro hx; rw [he] at hx; exact absurd hx (by decide))]
    rw [h1, ← hchar]
    rfl

/-- Witness for C3 (amended) at the concrete input `"abc"`, whose final path
component is non-empty. -/
theorem C3_witness :
    basenameList ("abc" : String).toList ≠ []
    ∧ (sanitize_path "abc").toList
        = (basenameList ("abc" : String).toList).map
            (fun c => if isSafeStart c then c else '_') :=
  ⟨by decide, (C3_amended "abc").2.2.2.2 (by decide)⟩

/-! ### Claim C4 -/

/-- Counterexample for C4 as stated: `"a\n"` is not absolute, contains no
`".."` and no separator, and its first character is alphanumeric, but its
second character `'\n'` is outside the allowed set — by the claim,
`validate_filename` must return `false`; it returns `true`, because Python's
`$` anchor also matches just before a single trailing newline. -/
theorem C4_counterexample :
    validate_filename "a\n" = true
    ∧ (("a\n" : String).toList.drop 1).all isSafeRest = false := by
  refine ⟨by decide, by decide⟩

/-- Claim C4 (amended): `validate_filename f` returns `true` iff `f` does not
start with `'/'`, contains no occurrence of the substring `".."`, contains
neither `'/'` nor `'\\'`, and consists of an alphanumeric first character
followed by characters from `{alphanumeric, '_', '-', '.'}` — except that, as
an artifact of Python's `$` anchor, a single additional trailing `'\n'` after
such a body is also accepted. -/
theorem C4_amended (f : String) :
    validate_filename f = true ↔
      ((¬ ∃ rest, f.toList = '/' :: rest)
       ∧ (¬ ∃ a b, f.toList = a ++ '.' :: '.' :: b)
       ∧ '/' ∉ f.toList ∧ '\\' ∉ f.toList
       ∧ ∃ c rest, f.toList = c :: rest ∧ isSafeStart c = true
          ∧ (rest.all isSafeRest = true
             ∨ ∃ r2, rest = r2 ++ ['\n'] ∧ r2.all isSafeRest = true)) := by
  unfold validate_filename
  by_cases hc : (posixIsAbs f || hasDotDot f.toList
      || containsChar f '/' || containsChar f '\\') = true
  · rw [if_pos hc]
    constructor
    · intro h
      exact absurd h (by decide)
    · rintro ⟨habs, hdd, hsl, hbs, -⟩
      exfalso
      rcases Bool.or_eq_true _ _ ▸ hc with hc3 | hc4
      · rcases Bool.or_eq_true _ _ ▸ hc3 with hc2 | hcC
        · rcases Bool.or_eq_true _ _ ▸ hc2 with hcA | hcD
          · exact habs ((posixIsAbs_iff f).mp hcA)
          · exact hdd ((hasDotDot_iff _).mp hcD)
        · exact hsl ((containsChar_iff f '/').mp hcC)
      · exact hbs ((containsChar_iff f '\\').mp hc4)
  · rw [if_neg hc]
    simp only [Bool.or_eq_true, not_or] at hc
    obtain ⟨⟨⟨hA, hD⟩, hS⟩, hB⟩ := hc
    rw [patMatch_iff]
    constructor
    · intro h
      refine ⟨?_, ?_, ?_, ?_, h⟩
      · intro hex
        exact hA ((posixIsAbs_iff f).mpr hex)
      · intro hex
        exact hD ((hasDotDot_iff _).mpr hex)
      · intro hm
        exact hS ((containsChar_iff f '/').mpr hm)
      · intro hm
        exact hB ((containsChar_iff f '\\').mpr hm)
    · rintro ⟨-, -, -, -, h⟩
      exact h

/-- Witness for C4 (amended) at the concrete input `"report-1.txt"`. -/
theorem C4_witness :
    validate_filename "report-1.txt" = true
    ∧ ∃ c rest, ("report-1.txt" : String).toList = c :: rest ∧ isSafeStart c = true
        ∧ (rest.all isSafeRest = true
           ∨ ∃ r2, rest = r2 ++ ['\n'] ∧ r2.all isSafeRest = true) :=
  ⟨by decide, ((C4_amended "report-1.txt").mp (by decide)).2.2.2.2⟩

/-! ### Claim C5 -/

/-- Claim C5: for every text whose UTF-8 encoding is at most
`MAX_TEXT_SIZE = 10485760` bytes, and assuming the filesystem write succeeds
(`WriteOutcome.ok`), `save_text` returns a success result whose `size` field —
the byte size of the created file — equals the UTF-8 encoded length of the
text, and the file created on disk has exactly that byte size. -/
theorem C5_success_size (root : String) (fs : FS) (text : String) (f : Option String)
    (t : Timestamp) (h : utf8Len text ≤ MAX_TEXT_SIZE) :
    List.lookup "status" (save_text root fs WriteOutcome.ok text f t).1
        = some (JVal.str "success")
    ∧ List.lookup "size" (save_text root fs WriteOutcome.ok text f t).1
        = some (JVal.num (utf8Len text))
    ∧ fsGetsize (save_text root fs WriteOutcome.ok text f t).2
        (osJoin root (deriveFilename f t)) = utf8Len text := by
  have hnot : ¬ utf8Len text > MAX_TEXT_SIZE := Nat.not_lt.mpr h
  have hsave : save_text root fs WriteOutcome.ok text f t
      = (verifyAndRespond (fsWrite fs (osJoin root (deriveFilename f t)) text)
          (osJoin root (deriveFilename f t)) (osJoin root (deriveFilename f t)) text
          (deriveFilename f t),
        fsWrite fs (osJoin root (deriveFilename f t)) text) := by
    unfold save_text save_text_body
    rw [if_neg hnot]
  rw [hsave]
  set p := osJoin root (deriveFilename f t) with hp
  have hfind : (fsWrite fs p text).files.find? (fun e => e.1 == p) = some (p, text) := by
    show List.find? _ ((p, text) :: _) = _
    rw [List.find?_cons_of_pos]
    simp
  have hhas : fsHas (fsWrite fs p text) p = true := by
    unfold fsHas
    rw [hfind]
    rfl
  have hsize : fsGetsize (fsWrite fs p text) p = utf8Len text := by
    unfold fsGetsize
    rw [hfind]
  have hcond : (fsGetsize (fsWrite fs p text) p == 0 && text.length != 0) = false := by
    rw [hsize]
    by_cases h0 : text.length = 0
    · simp [h0]
    · have hle := length_le_utf8Len text
      have hz : utf8Len text ≠ 0 := by omega
      simp [hz]
  have hver : verifyAndRespond (fsWrite fs p text) p p text (deriveFilename f t)
      = [("status", JVal.str "success"),
         ("message", JVal.str ("テキストをファイルに正常に保存しました: " ++ p)),
         ("path", JVal.str p),
         ("size", JVal.num (fsGetsize (fsWrite fs p text) p)),
         ("filename", JVal.str (deriveFilename f t))] := by
    unfold verifyAndRespond
    rw [if_neg (by intro hx; rw [hhas] at hx; exact absurd hx (by decide))]
    rw [if_neg (by intro hx; rw [hcond] at hx; exact absurd hx (by decide))]
  refine ⟨?_, ?_, hsize⟩
  · rw [hver]
    rfl
  · rw [hver, hsize]
    rfl

/-- Witness for C5 at a concrete root, text and timestamp. -/
theorem C5_witness :
    utf8Len "hi" ≤ MAX_TEXT_SIZE
    ∧ List.lookup "status" (save_text "/d" ⟨[]⟩ WriteOutcome.ok "hi" none
        ⟨2024, 1, 2, 3, 4, 5⟩).1 = some (JVal.str "success") :=
  ⟨by decide, (C5_success_size "/d" ⟨[]⟩ "hi" none ⟨2024, 1, 2, 3, 4, 5⟩ (by decide)).1⟩

/-! ### Claim C6 -/

/-- Claim C6: for every text whose UTF-8 encoding exceeds `MAX_TEXT_SIZE`
bytes, `save_text` returns the `TextTooLargeError` failure result and the
filesystem is unchanged — the size check precedes any write, for every write
outcome `w`. -/
theorem C6_too_large (root : String) (fs : FS) (w : WriteOutcome) (text : String)
    (f : Option String) (t : Timestamp) (h : MAX_TEXT_SIZE < utf8Len text) :
    save_text root fs w text f t = (mkError tooLargeMsg, fs) := by
  unfold save_text save_text_body
  rw [if_pos h]

/-- Witness for C6 at a concrete 10485761-byte text. -/
theorem C6_witness :
    MAX_TEXT_SIZE < utf8Len (String.mk (List.replicate 10485761 'a'))
    ∧ save_text "/d" ⟨[]⟩ WriteOutcome.ok (String.mk (List.replicate 10485761 'a')) none
        ⟨2024, 1, 2, 3, 4, 5⟩ = (mkError tooLargeMsg, ⟨[]⟩) := by
  have hbig : MAX_TEXT_SIZE < utf8Len (String.mk (List.replicate 10485761 'a')) := by
    rw [utf8Len_replicate]
    decide
  exact ⟨hbig, C6_too_large "/d" ⟨[]⟩ WriteOutcome.ok _ none ⟨2024, 1, 2, 3, 4, 5⟩ hbig⟩

/-! ### Claim C7 -/

/-- Claim C7: `save_text` is a total function — every raised error is caught
by its handlers and converted into a result value — and every result it
returns is a mapping with a `status` field equal to `"success"` or `"error"`
and a `message` field, with `path`, `size` and `filename` present exactly on
success. -/
theorem C7_result_shape (root : String) (fs : FS) (w : WriteOutcome) (text : String)
    (f : Option String) (t : Timestamp) :
    wellFormedResult (save_text root fs w text f t).1 := by
  unfold save_text save_text_body
  by_cases h : utf8Len text > MAX_TEXT_SIZE
  · rw [if_pos h]
    exact wf_mkError _
  · rw [if_neg h]
    cases w with
    | ok => exact wf_verify _ _ _ _ _
    | permDenied => exact wf_mkError _
    | ioFault e => exact wf_mkError _

/-! ### Claim C8 -/

/-- Claim C8: the filename ultimately used for the write — whether generated
from the timestamp, accepted by validation, or produced by sanitization — ends
with the literal suffix `".txt"` (appended when not already present);
`save_text` writes to `osJoin root (deriveFilename f t)` and reports this very
name in its success result. -/
theorem C8_txt_suffix (f : Option String) (t : Timestamp) :
    strEndsWith (deriveFilename f t) ".txt" = true :=
  (deriveFilename_props f t).2.2.2

/-! ### Claim C9 -/

/-- Claim C9: the post-write verification of `save_text`: when the target
file does not exist the result is the corresponding failure dict; when the
file exists with size zero although the text is non-empty the result is the
`WriteVerificationFailed` failure dict; and a success result with an on-disk
size of zero is possible only when the input text was empty. -/
theorem C9_write_verification (fs : FS) (fp ap text fn : String) :
    (fsHas fs fp = false →
      verifyAndRespond fs fp ap text fn
        = mkError ("ファイルが正常に作成されませんでした: " ++ ap))
    ∧ (fsHas fs fp = true → fsGetsize fs fp = 0 → text ≠ "" →
      verifyAndRespond fs fp ap text fn
        = mkError ("ファイルは作成されましたが、空のようです: " ++ ap))
    ∧ (List.lookup "status" (verifyAndRespond fs fp ap text fn) = some (JVal.str "success") →
      fsGetsize fs fp = 0 → text = "") := by
  refine ⟨?_, ?_, ?_⟩
  · intro h
    unfold verifyAndRespond
    rw [h]
    rfl
  · intro h1 h2 h3
    have hlen : ¬ text.length = 0 := fun h0 => h3 ((str_length_zero_iff text).mp h0)
    unfold verifyAndRespond
    rw [h1, h2]
    rw [if_neg (by decide)]
    rw [if_pos (by simp [bne_iff_ne, hlen])]
  · intro hs h0
    unfold verifyAndRespond at hs
    cases hb : fsHas fs fp with
    | false =>
      rw [hb] at hs
      rw [if_pos (by decide)] at hs
      exact absurd (show some (JVal.str "error") = some (JVal.str "success") from hs)
        (by decide)
    | true =>
      rw [hb, h0] at hs
      rw [if_neg (by decide)] at hs
      by_cases hl : text.length = 0
      · exact (str_length_zero_iff text).mp hl
      · rw [if_pos (by simp [bne_iff_ne, hl])] at hs
        exact absurd (show some (JVal.str "error") = some (JVal.str "success") from hs)
          (by decide)

/-- Witness for C9 at a concrete empty filesystem. -/
theorem C9_witness :
    fsHas ⟨[]⟩ "/d/p.txt" = false
    ∧ verifyAndRespond ⟨[]⟩ "/d/p.txt" "/d/p.txt" "x" "p.txt"
        = mkError ("ファイルが正常に作成されませんでした: " ++ "/d/p.txt") :=
  ⟨by decide, (C9_write_verification ⟨[]⟩ "/d/p.txt" "/d/p.txt" "x" "p.txt").1 (by decide)⟩

/-! ### Claim C10 -/

/-- Claim C10: an empty-string filename is treated exactly like an absent
filename: `save_text` behaves identically on `some ""` and `none` (so neither
validation nor sanitization is applied to the empty string), and the derived
name is the timestamp name `YYYY-MM-DD-HH-MM-SS.txt`. -/
theorem C10_empty_filename :
    (∀ root fs w text t, save_text root fs w text (some "") t
        = save_text root fs w text none t)
    ∧ ∀ t, deriveFilename (some "") t = fmtTimestamp t ++ ".txt" := by
  constructor
  · intro root fs w text t
    rfl
  · intro t
    show ensureTxt (fmtTimestamp t ++ ".txt") = fmtTimestamp t ++ ".txt"
    unfold ensureTxt
    rw [if_pos (show strEndsWith (fmtTimestamp t ++ ".txt") ".txt" = true
      from endsWithL_append (fmtTimestamp t).toList ".txt".toList)]

end TextSaver
